import Mathlib

/-!
Verification of the reconciliation and incremental persistence engine of the
conferencia-mercadoria application (src/app_conferencia.py).

Strings are embedded as `List Char` (`Str`) so that the Python string
primitives used by the source (`str.strip()`, `str.lstrip("0")`,
case-insensitive substring search, `str.split(":")`) become plain recursive
functions.  Only the ASCII behaviour of upper/lower-casing matters for the
tokens the source searches for ("CodSap", "DESCRI", "QTDE", "REAL", ...),
so casing is modelled with `Char.toUpper`/`Char.toLower`.

Pandas data frames are embedded as lists of records; the raw spreadsheet is a
grid `List (List Str)` of stringified cells (pandas' `astype(str)` turns
missing cells into the literal string "nan", which the model reproduces via
a "nan" default when a row is shorter than the resolved column index).
-/

/-- Strings as lists of characters. -/
abbrev Str := List Char

/-- Whitespace characters removed by Python `str.strip()` (ASCII subset:
space, tab, newline, carriage return, vertical tab, form feed). -/
def isPySpace (c : Char) : Bool :=
  c = ' ' || c = '\t' || c = '\n' || c = '\r' || c = Char.ofNat 11 || c = Char.ofNat 12

/-- Python `str.strip()`: drop leading and trailing whitespace. -/
def pyStrip (s : Str) : Str :=
  ((s.dropWhile isPySpace).reverse.dropWhile isPySpace).reverse

/-- Python `str.lstrip("0")`: drop leading '0' characters. -/
def pyLstrip0 (s : Str) : Str :=
  s.dropWhile (fun c => c = '0')

/-- Character-wise lower casing (ASCII). -/
def toLowerStr (s : Str) : Str := s.map Char.toLower

/-- Character-wise upper casing (ASCII). -/
def toUpperStr (s : Str) : Str := s.map Char.toUpper

/-- Boolean list-prefix test. -/
def ehPrefixo : Str → Str → Bool
  | [], _ => true
  | _ :: _, [] => false
  | a :: as, b :: bs => a = b && ehPrefixo as bs

/-- Boolean substring test: does `needle` occur contiguously inside `hay`?
Models Python `needle in hay` / `pandas.str.contains` for literal patterns. -/
def isSubstr (needle : Str) : Str → Bool
  | [] => needle.isEmpty
  | c :: rest => ehPrefixo needle (c :: rest) || isSubstr needle rest

/-- Normalization applied to a typed / scanned code in the confirm handler
(line 618 of the source): `codigo_digitado.strip().lstrip("0")` —
trim whitespace first, then strip leading zeros. -/
def normalizeDigitado (s : Str) : Str := pyLstrip0 (pyStrip s)

/-- Normalization applied to the manifest code column when the spreadsheet is
loaded (line 297 of the source):
`astype(str).str.lstrip("0").str.strip()` — strip leading zeros first, then
trim whitespace. -/
def normalizePlanilha (s : Str) : Str := pyStrip (pyLstrip0 s)

/-- Status string for an unexpected surplus line (UNEXPECTED_SURPLUS). -/
def statusSobrandoNaoPlanilha : String := "SOBRANDO (não estava na planilha)"

/-- The persistence-side classifier `calcular_status_db` (lines 157-166). -/
def calcular_status_db (qtd_prevista qtd_contada : Int) : String :=
  if qtd_prevista = 0 ∧ 0 < qtd_contada then statusSobrandoNaoPlanilha
  else if qtd_contada - qtd_prevista = 0 then "OK"
  else if 0 < qtd_contada - qtd_prevista then "SOBRANDO"
  else "FALTANDO"

/-- The in-memory classifier `classificar_status` (lines 680-688).  It reads
the row's precomputed `diferenca` column, so that value is an explicit
argument here; the caller (`df_parcial`, line 678) always passes
`qtd_contada - qtd_prevista`. -/
def classificar_status (qtd_prevista qtd_contada diferenca : Int) : String :=
  if qtd_prevista = 0 ∧ 0 < qtd_contada then statusSobrandoNaoPlanilha
  else if diferenca = 0 then "OK"
  else if 0 < diferenca then "SOBRANDO"
  else "FALTANDO"

section SanityChecks

example : normalizeDigitado "007".toList = "7".toList := by decide
example : normalizePlanilha "007 ".toList = "7".toList := by decide
example : calcular_status_db 0 5 = statusSobrandoNaoPlanilha := by decide
example : calcular_status_db 3 1 = "FALTANDO" := by decide
example : isSubstr "CodSap".toList "x CodSap y".toList = true := by decide
example : isSubstr "CodSap".toList "nan".toList = false := by decide

end SanityChecks

/-- One cleaned manifest row (`df_nf`, lines 295-300):
`codigo_original` is the trimmed raw code cell, `codigo` the normalized join
key, `qtd_prevista` the expected quantity coerced to an integer. -/
structure Item where
  codigo_original : Str
  codigo : Str
  descricao : Str
  qtd_prevista : Int
deriving DecidableEq

/-- One working-set row of `df_conferencia`.  The display-only
`codigo_original` column is omitted: no logic in the source reads it back. -/
structure Linha where
  codigo : Str
  descricao : Str
  qtd_prevista : Int
  qtd_contada : Int
deriving DecidableEq

/-- One persisted row of `public.conferencias_viagem_itens` for a fixed
conference id. -/
structure DBRow where
  codigo : Str
  descricao : Str
  qtd_prevista : Int
  qtd_contada : Int
  diferenca : Int
  status : String
deriving DecidableEq

/-- Failure modes of `carregar_planilha_nf`:
`indexError` models the `IndexError` that `df_raw.iloc[0]` raises on an empty
sheet (line 236), `headerNotFound` the `ValueError` "Não encontrei a linha de
cabeçalho com 'CodSap' na planilha." (line 262), `colunasNotFound` the
`ValueError` about unresolvable CodSap/Descrição/Qtde columns (line 290). -/
inductive ParseErr where
  | indexError
  | headerNotFound
  | colunasNotFound
deriving DecidableEq

/-- Result of `carregar_planilha_nf`: the cleaned item table plus the three
optional metadata fields scanned from row 0. -/
structure Planilha where
  itens : List Item
  meta_viagem : Option Str
  meta_loja : Option Str
  meta_data : Option Str
deriving DecidableEq

/-- Fixed description given to rows created for codes absent from the
manifest (line 644). -/
def naoCadastrado : Str := "NÃO CADASTRADO NA PLANILHA".toList

/-!  ## Reconciliation engine (in-memory working set)  -/

/-- Increment `qtd_contada` of the first row whose `codigo` equals `c`
(pandas `df_conf[mask].index[0]` followed by `.loc[idx, "qtd_contada"] += q`,
lines 620-624).  Rows after the first match are untouched. -/
def updateFirst (ws : List Linha) (c : Str) (q : Int) : List Linha :=
  match ws with
  | [] => []
  | l :: rest =>
      if l.codigo = c then { l with qtd_contada := l.qtd_contada + q } :: rest
      else l :: updateFirst rest c q

/-!  ## Persistence gateway (`registrar_contagem_db`, lines 168-209)  -/

/-- The SQL `update` branch: on the first row whose `codigo` equals `c`, add
`add` to the stored count, refresh `qtd_prevista` from the caller and
recompute `diferenca` and `status`; the stored `descricao` is not updated. -/
def updateFirstDB (db : List DBRow) (c : Str) (prevista add : Int) : List DBRow :=
  match db with
  | [] => []
  | r :: rest =>
      if r.codigo = c then
        { r with
          qtd_contada := r.qtd_contada + add
          qtd_prevista := prevista
          diferenca := r.qtd_contada + add - prevista
          status := calcular_status_db prevista (r.qtd_contada + add) } :: rest
      else r :: updateFirstDB rest c prevista add

/-- `registrar_contagem_db` for a fixed conference: update the existing row
for `codigo` if one exists, otherwise insert a new row with
`qtd_contada = qtd_add`. -/
def registrar_contagem_db (db : List DBRow) (codigo descricao : Str)
    (qtd_prevista qtd_add : Int) : List DBRow :=
  if db.any (fun r => r.codigo = codigo) then
    updateFirstDB db codigo qtd_prevista qtd_add
  else
    db ++ [⟨codigo, descricao, qtd_prevista, qtd_add,
           qtd_add - qtd_prevista, calcular_status_db qtd_prevista qtd_add⟩]

/-!  ## The confirm handler (lines 616-664)  -/

/-- One count-submission event processed by the `confirmar` button handler:
skip entirely when the typed code strips to the empty string; otherwise
normalize the code, then either bump the first matching working-set row and
mirror the add into the store (passing the matched row's description and
expected quantity), or append a new surplus row and mirror it with
`qtd_prevista = 0`. -/
def confirmar (ws : List Linha) (db : List DBRow) (raw : Str) (qtd : Int) :
    List Linha × List DBRow :=
  if pyStrip raw = [] then (ws, db)
  else
    let norm := normalizeDigitado raw
    match ws.find? (fun l => l.codigo = norm) with
    | some row =>
        (updateFirst ws norm qtd,
         registrar_contagem_db db norm row.descricao row.qtd_prevista qtd)
    | none =>
        (ws ++ [⟨norm, naoCadastrado, 0, qtd⟩],
         registrar_contagem_db db norm naoCadastrado 0 qtd)

/-- Fold a sequence of (raw code, quantity) events through the handler. -/
def runEvents (s : List Linha × List DBRow) (events : List (Str × Int)) :
    List Linha × List DBRow :=
  events.foldl (fun st e => confirmar st.1 st.2 e.1 e.2) s

/-!  ## Working-set initialization after upload (lines 391-421)  -/

/-- Build `df_conferencia` from the freshly parsed manifest and the rows
already persisted for the conference: seed each manifest row with the
persisted count for its code (0 when absent), then append the persisted rows
whose code is not in the manifest as surplus rows with `qtd_prevista = 0`.
The left merge is modelled with a first-match lookup, which coincides with
the pandas merge whenever the persisted codes are pairwise distinct (the
store's per-conference upsert keying keeps them so). -/
def inicializar_conferencia (items : List Item) (db : List DBRow) : List Linha :=
  if db.isEmpty then
    items.map (fun i => ⟨i.codigo, i.descricao, i.qtd_prevista, 0⟩)
  else
    (items.map (fun i =>
      ⟨i.codigo, i.descricao, i.qtd_prevista,
        (((db.find? (fun r => r.codigo = i.codigo)).map (fun r => r.qtd_contada)).getD 0)⟩))
    ++ ((db.filter (fun r => !(items.any (fun i => i.codigo = r.codigo)))).map
        (fun r => ⟨r.codigo, r.descricao, 0, r.qtd_contada⟩))

/-!  ## Per-code counted totals  -/

/-- Total counted quantity carried by working-set rows whose code is `c`. -/
def countedOf (ws : List Linha) (c : Str) : Int :=
  (ws.map (fun l => if l.codigo = c then l.qtd_contada else 0)).sum

/-- Total counted quantity carried by persisted rows whose code is `c`. -/
def countedOfDB (db : List DBRow) (c : Str) : Int :=
  (db.map (fun r => if r.codigo = c then r.qtd_contada else 0)).sum

/-- Contribution of one event to the code `c`: its quantity when the handler
guard passes and the typed code normalizes to `c`, otherwise 0. -/
def eventDelta (e : Str × Int) (c : Str) : Int :=
  if pyStrip e.1 ≠ [] ∧ normalizeDigitado e.1 = c then e.2 else 0

/-- Total contribution of an event sequence to the code `c`. -/
def eventSum (events : List (Str × Int)) (c : Str) : Int :=
  (events.map (fun e => eventDelta e c)).sum

section SanityChecks2

example :
    (confirmar [⟨"123".toList, "Widget".toList, 10, 0⟩] [] "0123".toList 4).1
      = [⟨"123".toList, "Widget".toList, 10, 4⟩] := by decide

example :
    (runEvents ([⟨"123".toList, "Widget".toList, 10, 0⟩], [])
      [("123".toList, 4), ("0123".toList, 6)]).1
      = [⟨"123".toList, "Widget".toList, 10, 10⟩] := by decide

example :
    (confirmar [] [] "999".toList 2).2
      = [⟨"999".toList, naoCadastrado, 0, 2, 2, statusSobrandoNaoPlanilha⟩] := by decide

example :
    inicializar_conferencia
      [⟨"7".toList, "7".toList, "A".toList, 10⟩]
      [⟨"7".toList, "A".toList, 10, 2, -8, "FALTANDO"⟩]
      = [⟨"7".toList, "A".toList, 10, 2⟩] := by decide

end SanityChecks2

/-!  ## Manifest parser (`carregar_planilha_nf`, lines 216-331)  -/

/-- Read the cell at column `i` of a row; pandas pads missing cells with NaN,
which `astype(str)` turns into the literal "nan". -/
def celula (row : List Str) (i : Nat) : Str := row.getD i "nan".toList

/-- Decimal value of a digit string. -/
def digitosParaNat (cs : Str) : Nat :=
  cs.foldl (fun acc c => acc * 10 + (c.toNat - 48)) 0

/-- Model of `pd.to_numeric(cell, errors="coerce")` restricted to
integer-formed cells (an optional minus sign followed by digits, with
surrounding whitespace ignored); anything else coerces to `none` (NaN).
Fractional or scientific notations are not modelled — no claim depends on
them. -/
def toNumericInt (cell : Str) : Option Int :=
  match pyStrip cell with
  | [] => none
  | '-' :: ds =>
      if !ds.isEmpty && ds.all (fun c => c.isDigit) then
        some (-(digitosParaNat ds : Int))
      else none
  | ds =>
      if ds.all (fun c => c.isDigit) then some ((digitosParaNat ds : Int))
      else none

/-- One metadata field of the row-0 scan (lines 237-249): when the label
token occurs in the cell, split the cell on ':' and keep the trimmed second
piece; a cell without a ':' leaves the previous value. -/
def atualizaMeta (cur : Option Str) (tok : Str) (cell : Str) : Option Str :=
  if isSubstr tok cell then
    match (List.splitOn ':' cell).get? 1 with
    | some resto => some (pyStrip resto)
    | none => cur
  else cur

/-- Scan row 0 for the "Viagem" / "Loja" / "Data" labels (case-sensitive,
exactly as the source tests `"Viagem" in value`). -/
def scanMeta (row0 : List Str) : Option Str × Option Str × Option Str :=
  row0.foldl
    (fun acc cell =>
      (atualizaMeta acc.1 "Viagem".toList cell,
       atualizaMeta acc.2.1 "Loja".toList cell,
       atualizaMeta acc.2.2 "Data".toList cell))
    (none, none, none)

/-- Does some cell of the row contain "CodSap" case-insensitively?
(`row.astype(str).str.contains("CodSap", case=False)`, line 256). -/
def linhaTemCodSap (row : List Str) : Bool :=
  row.any (fun cell => isSubstr (toLowerStr "CodSap".toList) (toLowerStr cell))

/-- `achar_coluna` (lines 276-282): index of the first column whose
upper-cased name contains `busca` and, when given, does not contain
`excluir`. -/
def acharColuna (cols : List Str) (busca : Str) (excluir : Option Str) : Option Nat :=
  cols.findIdx? (fun c =>
    let nome := toUpperStr c
    isSubstr (toUpperStr busca) nome &&
      (match excluir with
       | none => true
       | some e => !(isSubstr (toUpperStr e) nome)))

/-- Build one raw `df_nf` row from a data row of the sheet (lines 295-300). -/
def montarItem (iCod iDesc iQtd : Nat) (row : List Str) : Item :=
  { codigo_original := pyStrip (celula row iCod)
    codigo := normalizePlanilha (celula row iCod)
    descricao := pyStrip (celula row iDesc)
    qtd_prevista := (toNumericInt (celula row iQtd)).getD 0 }

/-- The cleaning block (lines 302-328), filter for filter in source order.
The two `dropna`/`notna` steps of the source are identities here (after
`astype(str)` no cell is null, and after `fillna(0)` no quantity is null) and
are therefore not represented. -/
def filtraItens (its : List Item) : List Item :=
  (((((its.filter
      (fun r => !(isSubstr "CODSAP".toList (toUpperStr r.codigo_original)))).filter
      (fun r => !(isSubstr "DESCRI".toList (toUpperStr r.descricao)))).filter
      (fun r => !(pyStrip r.codigo).isEmpty)).filter
      (fun r => !(toLowerStr r.descricao = "nan".toList))).filter
      (fun r => !(toLowerStr r.codigo = "nan".toList))).filter
      (fun r => !(r.qtd_prevista = 0 ∧ toLowerStr r.descricao = "nan".toList))

/-- `carregar_planilha_nf` over the raw cell grid: metadata scan of row 0
(raising an index error on an empty sheet, as `df_raw.iloc[0]` does), header
search for "CodSap", re-read with that row as header, column resolution, row
construction and cleaning. -/
def carregar_planilha_nf (grid : List (List Str)) : Except ParseErr Planilha :=
  match grid with
  | [] => .error .indexError
  | row0 :: _ =>
    let meta := scanMeta row0
    match grid.findIdx? linhaTemCodSap with
    | none => .error .headerNotFound
    | some h =>
      let cols := (grid.getD h []).map pyStrip
      let dados := grid.drop (h + 1)
      match acharColuna cols "CODSAP".toList none,
            acharColuna cols "DESCRI".toList none,
            acharColuna cols "QTDE".toList (some "REAL".toList) with
      | some iCod, some iDesc, some iQtd =>
          .ok ⟨filtraItens (dados.map (montarItem iCod iDesc iQtd)),
               meta.1, meta.2.1, meta.2.2⟩
      | _, _, _ => .error .colunasNotFound

/-!  ## Upload handler and session state (lines 336-421)  -/

/-- Python `value or "N/D"`: both `None` and the empty string fall back. -/
def orND (m : Option Str) : Str :=
  match m with
  | some s => if s.isEmpty then "N/D".toList else s
  | none => "N/D".toList

/-- The Streamlit session state touched by the upload branch. -/
structure SessionState where
  df_nf : Option (List Item)
  df_conferencia : Option (List Linha)
  meta_viagem : Option Str
  meta_loja : Option Str
  meta_data : Option Str
  conferencia_id : Option Nat
  conferencia_salva : Bool
deriving DecidableEq

/-- The upload branch (lines 359-421): reset the saved flag, parse the sheet
(st.error + st.stop on failure, leaving everything else untouched), and on
success store the parsed table, metadata, the conference id the gateway
returned, and the merged working set.  `confId` and `dbLines` stand for the
values `obter_ou_criar_conferencia` and `carregar_itens_conferencia` return
on the success path. -/
def uploadHandler (s : SessionState) (grid : List (List Str))
    (confId : Nat) (dbLines : List DBRow) : SessionState :=
  let s1 := { s with conferencia_salva := false }
  match carregar_planilha_nf grid with
  | .error _ => s1
  | .ok p =>
      { s1 with
        df_nf := some p.itens
        meta_viagem := some (orND p.meta_viagem)
        meta_loja := some (orND p.meta_loja)
        meta_data := some (orND p.meta_data)
        conferencia_id := some confId
        df_conferencia := some (inicializar_conferencia p.itens dbLines) }

deriving instance DecidableEq for Except

section SanityChecks3

example :
    carregar_planilha_nf [] = .error .indexError := by decide

example :
    carregar_planilha_nf [["Viagem: 12".toList, "x".toList]]
      = .error .headerNotFound := by decide

example :
    carregar_planilha_nf
      [["Roll".toList, "CodSap".toList, "Descricao".toList,
        "Qtde".toList, "Qtde Real".toList],
       ["1".toList, "00123".toList, "Widget".toList, "10".toList, "9".toList]]
      = .ok ⟨[⟨"00123".toList, "123".toList, "Widget".toList, 10⟩],
             none, none, none⟩ := by decide

example :
    toNumericInt "abc".toList = none ∧ toNumericInt " -3 ".toList = some (-3) := by decide

end SanityChecks3

/-!  ## Helper lemmas  -/

theorem dropWhile_eq_self_of_all_false {α : Type} (p : α → Bool) (l : List α)
    (h : ∀ a ∈ l, p a = false) : l.dropWhile p = l := by
  cases l with
  | nil => rfl
  | cons a l => simp [List.dropWhile, h a (List.mem_cons_self a l)]

theorem pyStrip_eq_self_of_noSpace (s : Str) (h : ∀ c ∈ s, isPySpace c = false) :
    pyStrip s = s := by
  unfold pyStrip
  rw [dropWhile_eq_self_of_all_false _ _ h,
     dropWhile_eq_self_of_all_false _ _ (fun c hc => h c (List.mem_reverse.mp hc)),
     List.reverse_reverse]

theorem dropWhile_dropWhile {α : Type} (p : α → Bool) (l : List α) :
    (l.dropWhile p).dropWhile p = l.dropWhile p := by
  induction l with
  | nil => rfl
  | cons a l ih =>
      by_cases hp : p a
      · simp [List.dropWhile, hp, ih]
      · simp [List.dropWhile, hp]

theorem mem_of_mem_dropWhile {α : Type} (p : α → Bool) (l : List α) (a : α)
    (h : a ∈ l.dropWhile p) : a ∈ l := by
  induction l with
  | nil => simp [List.dropWhile] at h
  | cons b l ih =>
      by_cases hp : p b
      · simp only [List.dropWhile, hp] at h
        exact List.mem_cons_of_mem b (ih h)
      · simp only [List.dropWhile, hp] at h
        exact h

theorem countedOf_nil (c : Str) : countedOf [] c = 0 := rfl

theorem countedOf_cons (l : Linha) (ws : List Linha) (c : Str) :
    countedOf (l :: ws) c
      = (if l.codigo = c then l.qtd_contada else 0) + countedOf ws c := by
  simp [countedOf]

theorem countedOf_append (a b : List Linha) (c : Str) :
    countedOf (a ++ b) c = countedOf a c + countedOf b c := by
  simp [countedOf]

theorem countedOfDB_nil (c : Str) : countedOfDB [] c = 0 := rfl

theorem countedOfDB_cons (r : DBRow) (db : List DBRow) (c : Str) :
    countedOfDB (r :: db) c
      = (if r.codigo = c then r.qtd_contada else 0) + countedOfDB db c := by
  simp [countedOfDB]

theorem countedOfDB_append (a b : List DBRow) (c : Str) :
    countedOfDB (a ++ b) c = countedOfDB a c + countedOfDB b c := by
  simp [countedOfDB]

theorem countedOf_updateFirst (ws : List Linha) (c0 c : Str) (q : Int)
    (h : ws.any (fun l => l.codigo = c0) = true) :
    countedOf (updateFirst ws c0 q) c
      = countedOf ws c + (if c0 = c then q else 0) := by
  induction ws with
  | nil => simp at h
  | cons l ws ih =>
      by_cases h0 : l.codigo = c0
      · rw [updateFirst, if_pos h0, countedOf_cons, countedOf_cons]
        subst h0
        by_cases hc : l.codigo = c
        · subst hc; simp; ring
        · simp [hc]
      · have h' : ws.any (fun l => l.codigo = c0) = true := by
          simp only [List.any_cons, decide_eq_true_eq, h0, false_or,
            decide_False, Bool.false_or] at h
          exact h
        rw [updateFirst, if_neg h0, countedOf_cons, countedOf_cons, ih h']
        ring

theorem countedOfDB_updateFirstDB (db : List DBRow) (c0 c : Str) (p q : Int)
    (h : db.any (fun r => r.codigo = c0) = true) :
    countedOfDB (updateFirstDB db c0 p q) c
      = countedOfDB db c + (if c0 = c then q else 0) := by
  induction db with
  | nil => simp at h
  | cons r db ih =>
      by_cases h0 : r.codigo = c0
      · rw [updateFirstDB, if_pos h0, countedOfDB_cons, countedOfDB_cons]
        subst h0
        by_cases hc : r.codigo = c
        · subst hc; simp; ring
        · simp [hc]
      · have h' : db.any (fun r => r.codigo = c0) = true := by
          simp only [List.any_cons, decide_eq_true_eq, h0, false_or,
            decide_False, Bool.false_or] at h
          exact h
        rw [updateFirstDB, if_neg h0, countedOfDB_cons, countedOfDB_cons, ih h']
        ring

theorem countedOfDB_registrar (db : List DBRow) (cod desc : Str) (prev add : Int)
    (c : Str) :
    countedOfDB (registrar_contagem_db db cod desc prev add) c
      = countedOfDB db c + (if cod = c then add else 0) := by
  unfold registrar_contagem_db
  by_cases h : db.any (fun r => r.codigo = cod) = true
  · rw [if_pos h, countedOfDB_updateFirstDB db cod c prev add h]
  · rw [if_neg h, countedOfDB_append]
    simp [countedOfDB]

theorem any_of_find?_eq_some (ws : List Linha) (c0 : Str) (row : Linha)
    (hf : ws.find? (fun l => l.codigo = c0) = some row) :
    ws.any (fun l => l.codigo = c0) = true := by
  have h1 : row ∈ ws := List.mem_of_find?_eq_some hf
  have h2 := List.find?_some hf
  simp only [decide_eq_true_eq] at h2
  simp only [List.any_eq_true, decide_eq_true_eq]
  exact ⟨row, h1, h2⟩

theorem countedOf_confirmar (ws : List Linha) (db : List DBRow) (raw : Str)
    (q : Int) (c : Str) :
    countedOf (confirmar ws db raw q).1 c
      = countedOf ws c + eventDelta (raw, q) c := by
  by_cases hg : pyStrip raw = []
  · simp [confirmar, hg, eventDelta]
  · have hd : eventDelta (raw, q) c = if normalizeDigitado raw = c then q else 0 := by
      simp [eventDelta, hg]
    rw [hd]
    cases hf : ws.find? (fun l => l.codigo = normalizeDigitado raw) with
    | some row =>
        simp only [confirmar, if_neg hg, hf]
        exact countedOf_updateFirst ws _ c q (any_of_find?_eq_some ws _ row hf)
    | none =>
        simp only [confirmar, if_neg hg, hf, countedOf_append, countedOf_cons,
          countedOf_nil]
        ring

theorem countedOfDB_confirmar (ws : List Linha) (db : List DBRow) (raw : Str)
    (q : Int) (c : Str) :
    countedOfDB (confirmar ws db raw q).2 c
      = countedOfDB db c + eventDelta (raw, q) c := by
  by_cases hg : pyStrip raw = []
  · simp [confirmar, hg, eventDelta]
  · have hd : eventDelta (raw, q) c = if normalizeDigitado raw = c then q else 0 := by
      simp [eventDelta, hg]
    rw [hd]
    cases hf : ws.find? (fun l => l.codigo = normalizeDigitado raw) with
    | some row =>
        simp only [confirmar, if_neg hg, hf]
        exact countedOfDB_registrar db _ row.descricao row.qtd_prevista q c
    | none =>
        simp only [confirmar, if_neg hg, hf]
        exact countedOfDB_registrar db _ naoCadastrado 0 q c

theorem countedOf_runEvents (events : List (Str × Int))
    (s : List Linha × List DBRow) (c : Str) :
    countedOf (runEvents s events).1 c = countedOf s.1 c + eventSum events c := by
  induction events generalizing s with
  | nil => simp [runEvents, eventSum]
  | cons e es ih =>
      have hstep : runEvents s (e :: es) = runEvents (confirmar s.1 s.2 e.1 e.2) es := by
        simp [runEvents]
      rw [hstep, ih, countedOf_confirmar]
      simp [eventSum, eventDelta]
      ring

theorem countedOfDB_runEvents (events : List (Str × Int))
    (s : List Linha × List DBRow) (c : Str) :
    countedOfDB (runEvents s events).2 c = countedOfDB s.2 c + eventSum events c := by
  induction events generalizing s with
  | nil => simp [runEvents, eventSum]
  | cons e es ih =>
      have hstep : runEvents s (e :: es) = runEvents (confirmar s.1 s.2 e.1 e.2) es := by
        simp [runEvents]
      rw [hstep, ih, countedOfDB_confirmar]
      simp [eventSum, eventDelta]
      ring

theorem map_codigo_updateFirst (ws : List Linha) (c : Str) (q : Int) :
    (updateFirst ws c q).map (fun l => l.codigo) = ws.map (fun l => l.codigo) := by
  induction ws with
  | nil => rfl
  | cons l ws ih =>
      by_cases h0 : l.codigo = c
      · simp [updateFirst, h0]
      · simp [updateFirst, h0, ih]

theorem map_codigo_updateFirstDB (db : List DBRow) (c : Str) (p q : Int) :
    (updateFirstDB db c p q).map (fun r => r.codigo) = db.map (fun r => r.codigo) := by
  induction db with
  | nil => rfl
  | cons r db ih =>
      by_cases h0 : r.codigo = c
      · simp [updateFirstDB, h0]
      · simp [updateFirstDB, h0, ih]

theorem codes_confirmar (ws : List Linha) (db : List DBRow) (raw : Str) (q : Int) :
    (confirmar ws db raw q).1.map (fun l => l.codigo) = ws.map (fun l => l.codigo)
    ∨ ((confirmar ws db raw q).1.map (fun l => l.codigo)
         = ws.map (fun l => l.codigo) ++ [normalizeDigitado raw]
       ∧ ∀ l ∈ ws, l.codigo ≠ normalizeDigitado raw) := by
  by_cases hg : pyStrip raw = []
  · left; simp [confirmar, hg]
  · cases hf : ws.find? (fun l => l.codigo = normalizeDigitado raw) with
    | some row =>
        left
        simp only [confirmar, if_neg hg, hf]
        exact map_codigo_updateFirst ws _ q
    | none =>
        right
        constructor
        · simp [confirmar, hg, hf]
        · intro l hl
          have := List.find?_eq_none.mp hf l hl
          simpa using this

theorem codes_registrar (db : List DBRow) (cod desc : Str) (p q : Int) :
    (registrar_contagem_db db cod desc p q).map (fun r => r.codigo) = db.map (fun r => r.codigo)
    ∨ ((registrar_contagem_db db cod desc p q).map (fun r => r.codigo)
         = db.map (fun r => r.codigo) ++ [cod]
       ∧ ∀ r ∈ db, r.codigo ≠ cod) := by
  unfold registrar_contagem_db
  by_cases hany : db.any (fun r => r.codigo = cod) = true
  · left
    rw [if_pos hany]
    exact map_codigo_updateFirstDB db cod p q
  · right
    rw [if_neg hany]
    constructor
    · simp
    · intro r hr
      intro hcontra
      apply hany
      simp only [List.any_eq_true, decide_eq_true_eq]
      exact ⟨r, hr, hcontra⟩

theorem nodup_codes_confirmar (ws : List Linha) (db : List DBRow) (raw : Str)
    (q : Int) (h : (ws.map (fun l => l.codigo)).Nodup) :
    ((confirmar ws db raw q).1.map (fun l => l.codigo)).Nodup := by
  rcases codes_confirmar ws db raw q with heq | ⟨heq, hnot⟩
  · rw [heq]; exact h
  · rw [heq, List.nodup_append]
    refine ⟨h, List.nodup_singleton _, ?_⟩
    intro a ha hb
    simp only [List.mem_singleton] at hb
    subst hb
    rcases List.mem_map.mp ha with ⟨l, hl, hcod⟩
    exact hnot l hl hcod

theorem nodup_codes_registrar (db : List DBRow) (cod desc : Str) (p q : Int)
    (h : (db.map (fun r => r.codigo)).Nodup) :
    ((registrar_contagem_db db cod desc p q).map (fun r => r.codigo)).Nodup := by
  rcases codes_registrar db cod desc p q with heq | ⟨heq, hnot⟩
  · rw [heq]; exact h
  · rw [heq, List.nodup_append]
    refine ⟨h, List.nodup_singleton _, ?_⟩
    intro a ha hb
    simp only [List.mem_singleton] at hb
    subst hb
    rcases List.mem_map.mp ha with ⟨r, hr, hcod⟩
    exact hnot r hr hcod

theorem nodup_codes_confirmar_db (ws : List Linha) (db : List DBRow) (raw : Str)
    (q : Int) (h : (db.map (fun r => r.codigo)).Nodup) :
    ((confirmar ws db raw q).2.map (fun r => r.codigo)).Nodup := by
  by_cases hg : pyStrip raw = []
  · simpa [confirmar, hg] using h
  · cases hf : ws.find? (fun l => l.codigo = normalizeDigitado raw) with
    | some row =>
        simp only [confirmar, if_neg hg, hf]
        exact nodup_codes_registrar db _ _ _ _ h
    | none =>
        simp only [confirmar, if_neg hg, hf]
        exact nodup_codes_registrar db _ _ _ _ h

theorem nodup_codes_runEvents (events : List (Str × Int))
    (s : List Linha × List DBRow) (h : (s.1.map (fun l => l.codigo)).Nodup) :
    ((runEvents s events).1.map (fun l => l.codigo)).Nodup := by
  induction events generalizing s with
  | nil => simpa [runEvents] using h
  | cons e es ih =>
      have hstep : runEvents s (e :: es) = runEvents (confirmar s.1 s.2 e.1 e.2) es := by
        simp [runEvents]
      rw [hstep]
      exact ih _ (nodup_codes_confirmar s.1 s.2 e.1 e.2 h)

theorem nodup_codes_runEvents_db (events : List (Str × Int))
    (s : List Linha × List DBRow) (h : (s.2.map (fun r => r.codigo)).Nodup) :
    ((runEvents s events).2.map (fun r => r.codigo)).Nodup := by
  induction events generalizing s with
  | nil => simpa [runEvents] using h
  | cons e es ih =>
      have hstep : runEvents s (e :: es) = runEvents (confirmar s.1 s.2 e.1 e.2) es := by
        simp [runEvents]
      rw [hstep]
      exact ih _ (nodup_codes_confirmar_db s.1 s.2 e.1 e.2 h)

theorem countedOf_eq_zero_of_not_mem (ws : List Linha) (c : Str)
    (h : c ∉ ws.map (fun l => l.codigo)) : countedOf ws c = 0 := by
  induction ws with
  | nil => rfl
  | cons l ws ih =>
      simp only [List.map_cons, List.mem_cons, not_or] at h
      rw [countedOf_cons, if_neg (fun hc => h.1 hc.symm), ih h.2]
      ring

theorem countedOfDB_eq_zero_of_not_mem (db : List DBRow) (c : Str)
    (h : c ∉ db.map (fun r => r.codigo)) : countedOfDB db c = 0 := by
  induction db with
  | nil => rfl
  | cons r db ih =>
      simp only [List.map_cons, List.mem_cons, not_or] at h
      rw [countedOfDB_cons, if_neg (fun hc => h.1 hc.symm), ih h.2]
      ring

theorem contada_eq_countedOf (ws : List Linha) (l : Linha)
    (hnd : (ws.map (fun x => x.codigo)).Nodup) (hl : l ∈ ws) :
    l.qtd_contada = countedOf ws l.codigo := by
  induction ws with
  | nil => simp at hl
  | cons a ws ih =>
      simp only [List.map_cons, List.nodup_cons] at hnd
      rcases List.mem_cons.mp hl with heq | hmem
      · subst heq
        rw [countedOf_cons, if_pos rfl,
          countedOf_eq_zero_of_not_mem ws l.codigo hnd.1]
        ring
      · have hne : a.codigo ≠ l.codigo := by
          intro hc
          exact hnd.1 (hc ▸ List.mem_map_of_mem (fun x => x.codigo) hmem)
        rw [countedOf_cons, if_neg hne, ih hnd.2 hmem]
        ring

theorem lookup_eq_countedOfDB (db : List DBRow) (c : Str)
    (hnd : (db.map (fun r => r.codigo)).Nodup) :
    (((db.find? (fun r => r.codigo = c)).map (fun r => r.qtd_contada)).getD 0)
      = countedOfDB db c := by
  induction db with
  | nil => rfl
  | cons r db ih =>
      simp only [List.map_cons, List.nodup_cons] at hnd
      by_cases h0 : r.codigo = c
      · rw [List.find?_cons_of_pos _ (by simpa using h0), countedOfDB_cons,
          if_pos h0, countedOfDB_eq_zero_of_not_mem db c (h0 ▸ hnd.1)]
        simp
      · rw [List.find?_cons_of_neg _ (by simpa using h0), countedOfDB_cons,
          if_neg h0, ih hnd.2]
        ring

theorem countedOf_seeded (items : List Item) (db : List DBRow) (c : Str)
    (hni : (items.map (fun i => i.codigo)).Nodup) :
    countedOf (items.map (fun i =>
        (⟨i.codigo, i.descricao, i.qtd_prevista,
          (((db.find? (fun r => r.codigo = i.codigo)).map (fun r => r.qtd_contada)).getD 0)⟩ : Linha))) c
      = if items.any (fun i => i.codigo = c) then
          (((db.find? (fun r => r.codigo = c)).map (fun r => r.qtd_contada)).getD 0)
        else 0 := by
  induction items with
  | nil => simp [countedOf]
  | cons i items ih =>
      simp only [List.map_cons, List.nodup_cons] at hni
      rw [List.map_cons, countedOf_cons]
      by_cases h0 : i.codigo = c
      · have hrest : items.any (fun j => j.codigo = c) = false := by
          rw [Bool.eq_false_iff]
          intro hc
          rcases (List.any_eq_true).mp hc with ⟨j, hj, hjc⟩
          simp only [decide_eq_true_eq] at hjc
          exact hni.1 (by
            rw [h0, ← hjc]
            exact List.mem_map_of_mem (fun x => x.codigo) hj)
        rw [ih hni.2, hrest]
        simp only [if_pos h0, Bool.false_eq_true, if_false, List.any_cons,
          h0, decide_True, Bool.true_or, if_true]
        subst h0
        ring
      · rw [ih hni.2]
        simp [if_neg h0, List.any_cons, h0]

theorem countedOf_extras (items : List Item) (db : List DBRow) (c : Str) :
    countedOf ((db.filter (fun r => !(items.any (fun i => i.codigo = r.codigo)))).map
        (fun r => (⟨r.codigo, r.descricao, 0, r.qtd_contada⟩ : Linha))) c
      = if items.any (fun i => i.codigo = c) then 0 else countedOfDB db c := by
  induction db with
  | nil => simp [countedOf, countedOfDB]
  | cons r db ih =>
      by_cases hk : items.any (fun i => i.codigo = r.codigo) = true
      · rw [List.filter_cons_of_neg (by simpa using hk), ih, countedOfDB_cons]
        by_cases hc : items.any (fun i => i.codigo = c) = true
        · simp [hc]
        · have hrc : r.codigo ≠ c := by
            intro h; rw [h] at hk; exact hc hk
          simp only [Bool.not_eq_true] at hc
          simp [hc, hrc]
      · rw [List.filter_cons_of_pos (by simpa using hk), List.map_cons,
          countedOf_cons, ih, countedOfDB_cons]
        by_cases hc : items.any (fun i => i.codigo = c) = true
        · have hrc : r.codigo ≠ c := by
            intro h; rw [← h] at hc; exact hk hc
          simp [hc, hrc]
        · simp only [Bool.not_eq_true] at hc
          simp only [hc, Bool.false_eq_true, if_false]

theorem find?_split {α : Type} (p : α → Bool) (l : List α) (a : α)
    (h : l.find? p = some a) :
    ∃ l₁ l₂, l = l₁ ++ a :: l₂ ∧ ∀ x ∈ l₁, p x = false := by
  induction l with
  | nil => simp at h
  | cons b l ih =>
      by_cases hp : p b = true
      · rw [List.find?_cons_of_pos _ hp] at h
        injection h with h
        subst h
        exact ⟨[], l, rfl, by simp⟩
      · rw [List.find?_cons_of_neg _ hp] at h
        rcases ih h with ⟨l₁, l₂, heq, hall⟩
        refine ⟨b :: l₁, l₂, by rw [heq]; rfl, ?_⟩
        intro x hx
        rcases List.mem_cons.mp hx with h1 | h2
        · subst h1; exact Bool.eq_false_iff.mpr hp
        · exact hall x h2

theorem updateFirst_append_first (ws₁ : List Linha) (l : Linha) (ws₂ : List Linha)
    (c : Str) (q : Int) (h₁ : ∀ x ∈ ws₁, x.codigo ≠ c) (h₂ : l.codigo = c) :
    updateFirst (ws₁ ++ l :: ws₂) c q
      = ws₁ ++ { l with qtd_contada := l.qtd_contada + q } :: ws₂ := by
  induction ws₁ with
  | nil => simp [updateFirst, h₂]
  | cons a ws₁ ih =>
      have ha : a.codigo ≠ c := h₁ a (List.mem_cons_self a ws₁)
      have hrest : ∀ x ∈ ws₁, x.codigo ≠ c := fun x hx => h₁ x (List.mem_cons_of_mem a hx)
      simp [updateFirst, ha, ih hrest]

theorem updateFirstDB_append_first (db₁ : List DBRow) (r : DBRow) (db₂ : List DBRow)
    (c : Str) (p q : Int) (h₁ : ∀ x ∈ db₁, x.codigo ≠ c) (h₂ : r.codigo = c) :
    updateFirstDB (db₁ ++ r :: db₂) c p q
      = db₁ ++ { r with
                 qtd_contada := r.qtd_contada + q
                 qtd_prevista := p
                 diferenca := r.qtd_contada + q - p
                 status := calcular_status_db p (r.qtd_contada + q) } :: db₂ := by
  induction db₁ with
  | nil => simp [updateFirstDB, h₂]
  | cons a db₁ ih =>
      have ha : a.codigo ≠ c := h₁ a (List.mem_cons_self a db₁)
      have hrest : ∀ x ∈ db₁, x.codigo ≠ c := fun x hx => h₁ x (List.mem_cons_of_mem a hx)
      simp [updateFirstDB, ha, ih hrest]

theorem eq_of_nodup_map {α β : Type} (f : α → β) (l : List α) (a b : α)
    (hnd : (l.map f).Nodup) (ha : a ∈ l) (hb : b ∈ l) (hf : f a = f b) : a = b := by
  induction l with
  | nil => simp at ha
  | cons x l ih =>
      rw [List.map_cons, List.nodup_cons] at hnd
      rcases List.mem_cons.mp ha with ha1 | ha2 <;> rcases List.mem_cons.mp hb with hb1 | hb2
      · rw [ha1, hb1]
      · subst ha1
        exact absurd (hf ▸ List.mem_map_of_mem f hb2) hnd.1
      · subst hb1
        exact absurd (hf ▸ List.mem_map_of_mem f ha2) hnd.1
      · exact ih hnd.2 ha2 hb2

theorem nodup_map_split {α β : Type} (f : α → β) (l₁ l₂ : List α) (a : α)
    (h : ((l₁ ++ a :: l₂).map f).Nodup) :
    (∀ x ∈ l₁, f x ≠ f a) ∧ ∀ x ∈ l₂, f x ≠ f a := by
  rw [List.map_append, List.map_cons, List.nodup_append] at h
  obtain ⟨h₁, h₂, hdisj⟩ := h
  constructor
  · intro x hx hcontra
    exact hdisj (List.mem_map_of_mem f hx) (by simp [hcontra])
  · intro x hx hcontra
    exact (List.nodup_cons.mp h₂).1 (hcontra ▸ List.mem_map_of_mem f hx)

theorem exists_row_updateFirst (ws : List Linha) (c : Str) (q : Int) (l : Linha)
    (hl : l ∈ ws) :
    ∃ x ∈ updateFirst ws c q, x.codigo = l.codigo ∧ x.qtd_prevista = l.qtd_prevista := by
  induction ws with
  | nil => simp at hl
  | cons a ws ih =>
      by_cases h0 : a.codigo = c
      · rw [updateFirst, if_pos h0]
        rcases List.mem_cons.mp hl with h1 | h2
        · subst h1
          exact ⟨_, List.mem_cons_self _ _, rfl, rfl⟩
        · exact ⟨l, List.mem_cons_of_mem _ h2, rfl, rfl⟩
      · rw [updateFirst, if_neg h0]
        rcases List.mem_cons.mp hl with h1 | h2
        · subst h1
          exact ⟨l, List.mem_cons_self _ _, rfl, rfl⟩
        · rcases ih h2 with ⟨x, hx, hcod, hprev⟩
          exact ⟨x, List.mem_cons_of_mem _ hx, hcod, hprev⟩

theorem exists_row_confirmar (ws : List Linha) (db : List DBRow) (raw : Str)
    (q : Int) (l : Linha) (hl : l ∈ ws) :
    ∃ x ∈ (confirmar ws db raw q).1,
      x.codigo = l.codigo ∧ x.qtd_prevista = l.qtd_prevista := by
  by_cases hg : pyStrip raw = []
  · exact ⟨l, by simpa [confirmar, hg] using hl, rfl, rfl⟩
  · cases hf : ws.find? (fun x => x.codigo = normalizeDigitado raw) with
    | some row =>
        simp only [confirmar, if_neg hg, hf]
        exact exists_row_updateFirst ws _ q l hl
    | none =>
        simp only [confirmar, if_neg hg, hf]
        exact ⟨l, List.mem_append_left _ hl, rfl, rfl⟩

theorem exists_row_runEvents (events : List (Str × Int))
    (s : List Linha × List DBRow) (l : Linha) (hl : l ∈ s.1) :
    ∃ x ∈ (runEvents s events).1,
      x.codigo = l.codigo ∧ x.qtd_prevista = l.qtd_prevista := by
  induction events generalizing s l with
  | nil => exact ⟨l, by simpa [runEvents] using hl, rfl, rfl⟩
  | cons e es ih =>
      have hstep : runEvents s (e :: es) = runEvents (confirmar s.1 s.2 e.1 e.2) es := by
        simp [runEvents]
      rw [hstep]
      rcases exists_row_confirmar s.1 s.2 e.1 e.2 l hl with ⟨x, hx, hcod, hprev⟩
      rcases ih (confirmar s.1 s.2 e.1 e.2) x hx with ⟨y, hy, hcod2, hprev2⟩
      exact ⟨y, hy, hcod2.trans hcod, hprev2.trans hprev⟩

/-- Pointwise relation between a working-set row before and after an event:
code and expected quantity are unchanged and the counted quantity has not
decreased. -/
def rowLe (a b : Linha) : Prop :=
  b.codigo = a.codigo ∧ b.qtd_prevista = a.qtd_prevista ∧ a.qtd_contada ≤ b.qtd_contada

theorem forall2_rowLe_refl (ws : List Linha) : List.Forall₂ rowLe ws ws := by
  induction ws with
  | nil => constructor
  | cons a ws ih => exact List.Forall₂.cons ⟨rfl, rfl, le_refl _⟩ ih

theorem forall2_rowLe_updateFirst (ws : List Linha) (c : Str) (q : Int)
    (hq : 0 ≤ q) : List.Forall₂ rowLe ws (updateFirst ws c q) := by
  induction ws with
  | nil => constructor
  | cons a ws ih =>
      by_cases h0 : a.codigo = c
      · rw [updateFirst, if_pos h0]
        exact List.Forall₂.cons ⟨rfl, rfl, by simp [hq]⟩ (forall2_rowLe_refl ws)
      · rw [updateFirst, if_neg h0]
        exact List.Forall₂.cons ⟨rfl, rfl, le_refl _⟩ ih

theorem updateFirst_length (ws : List Linha) (c : Str) (q : Int) :
    (updateFirst ws c q).length = ws.length := by
  have h := congrArg List.length (map_codigo_updateFirst ws c q)
  simpa using h

theorem confirmar_monotone (ws : List Linha) (db : List DBRow) (raw : Str)
    (q : Int) (hq : 0 ≤ q) :
    ws.length ≤ (confirmar ws db raw q).1.length
      ∧ List.Forall₂ rowLe ws ((confirmar ws db raw q).1.take ws.length) := by
  by_cases hg : pyStrip raw = []
  · simp only [confirmar, if_pos hg]
    exact ⟨le_refl _, by rw [List.take_length]; exact forall2_rowLe_refl ws⟩
  · cases hf : ws.find? (fun x => x.codigo = normalizeDigitado raw) with
    | some row =>
        simp only [confirmar, if_neg hg, hf]
        constructor
        · rw [updateFirst_length]
        · rw [List.take_of_length_le (le_of_eq (updateFirst_length ws _ q))]
          exact forall2_rowLe_updateFirst ws _ q hq
    | none =>
        simp only [confirmar, if_neg hg, hf]
        constructor
        · simp
        · rw [List.take_left]
          exact forall2_rowLe_refl ws

/-- The two status classifiers implement the same rule: the persistence-side
`calcular_status_db` agrees with the in-memory `classificar_status` whenever
the latter receives the difference the rendering code computes. -/
theorem calcular_eq_classificar (p c : Int) :
    calcular_status_db p c = classificar_status p c (c - p) := rfl

/-- Mirror invariant between the in-memory working set and the persisted
rows of the live conference: codes are unique on both sides, every persisted
row agrees field-for-field with the (unique) working-set row of its code
(with `diferenca` and `status` derived by the shared rule), and a
working-set row that has no persisted counterpart has not been counted
yet. -/
def invMirror (s : List Linha × List DBRow) : Prop :=
  (s.1.map (fun l => l.codigo)).Nodup
  ∧ (s.2.map (fun r => r.codigo)).Nodup
  ∧ (∀ r ∈ s.2, ∃ l ∈ s.1,
      l.codigo = r.codigo ∧ r.qtd_contada = l.qtd_contada
      ∧ r.qtd_prevista = l.qtd_prevista
      ∧ r.diferenca = l.qtd_contada - l.qtd_prevista
      ∧ r.status = classificar_status l.qtd_prevista l.qtd_contada
          (l.qtd_contada - l.qtd_prevista))
  ∧ (∀ l ∈ s.1, (∀ r ∈ s.2, r.codigo ≠ l.codigo) → l.qtd_contada = 0)

theorem invMirror_confirmar (ws : List Linha) (db : List DBRow) (raw : Str)
    (q : Int) (h : invMirror (ws, db)) : invMirror (confirmar ws db raw q) := by
  obtain ⟨hw, hd, hmir, hzero⟩ := h
  by_cases hg : pyStrip raw = []
  · simp only [confirmar, if_pos hg]
    exact ⟨hw, hd, hmir, hzero⟩
  cases hf : ws.find? (fun l => l.codigo = normalizeDigitado raw) with
  | some row =>
    have hrowmem : row ∈ ws := List.mem_of_find?_eq_some hf
    have hrowcode : row.codigo = normalizeDigitado raw := by
      simpa using List.find?_some hf
    obtain ⟨ws₁, ws₂, hwsplit, hws1⟩ := find?_split _ ws row hf
    have hws1' : ∀ x ∈ ws₁, x.codigo ≠ normalizeDigitado raw := by
      intro x hx
      simpa using hws1 x hx
    have hupd : updateFirst ws (normalizeDigitado raw) q
        = ws₁ ++ { row with qtd_contada := row.qtd_contada + q } :: ws₂ := by
      rw [hwsplit]
      exact updateFirst_append_first ws₁ row ws₂ _ q hws1' hrowcode
    have hwsmem : ∀ l ∈ ws, l ∈ ws₁ ∨ l = row ∨ l ∈ ws₂ := by
      intro l hl
      rw [hwsplit] at hl
      simpa [List.mem_append, List.mem_cons] using hl
    have hrowmem' : { row with qtd_contada := row.qtd_contada + q }
        ∈ ws₁ ++ { row with qtd_contada := row.qtd_contada + q } :: ws₂ :=
      List.mem_append_right _ (List.mem_cons_self _ _)
    have hwcodes : ((ws₁ ++ { row with qtd_contada := row.qtd_contada + q } :: ws₂).map
        (fun l => l.codigo)).Nodup := by
      have := map_codigo_updateFirst ws (normalizeDigitado raw) q
      rw [hupd] at this
      rw [this]
      exact hw
    simp only [confirmar, if_neg hg, hf]
    by_cases hany : db.any (fun r => r.codigo = normalizeDigitado raw) = true
    · -- the store already has a row for this code: SQL update branch
      obtain ⟨r0, hr0f⟩ :
          ∃ r0, db.find? (fun r => r.codigo = normalizeDigitado raw) = some r0 := by
        rcases List.any_eq_true.mp hany with ⟨r, hr, hpr⟩
        cases hfind : db.find? (fun r => r.codigo = normalizeDigitado raw) with
        | some r0 => exact ⟨r0, rfl⟩
        | none => exact absurd hpr (by simpa using List.find?_eq_none.mp hfind r hr)
      have hr0mem : r0 ∈ db := List.mem_of_find?_eq_some hr0f
      have hr0code : r0.codigo = normalizeDigitado raw := by
        simpa using List.find?_some hr0f
      obtain ⟨db₁, db₂, hdsplit, hdb1⟩ := find?_split _ db r0 hr0f
      have hdb1' : ∀ x ∈ db₁, x.codigo ≠ normalizeDigitado raw := by
        intro x hx
        simpa using hdb1 x hx
      have hdb2' : ∀ x ∈ db₂, x.codigo ≠ normalizeDigitado raw := by
        intro x hx
        have := (nodup_map_split (fun r => r.codigo) db₁ db₂ r0 (hdsplit ▸ hd)).2 x hx
        rw [hr0code] at this
        exact this
      have hregeq :
          registrar_contagem_db db (normalizeDigitado raw) row.descricao row.qtd_prevista q
            = db₁ ++ { r0 with
                       qtd_contada := r0.qtd_contada + q
                       qtd_prevista := row.qtd_prevista
                       diferenca := r0.qtd_contada + q - row.qtd_prevista
                       status := calcular_status_db row.qtd_prevista (r0.qtd_contada + q) }
                :: db₂ := by
        unfold registrar_contagem_db
        rw [if_pos hany, hdsplit]
        exact updateFirstDB_append_first db₁ r0 db₂ _ _ _ hdb1' hr0code
      -- r0's mirror witness in the working set is exactly `row`
      obtain ⟨l0, hl0mem, hl0code, hl0cont, hl0prev, _, _⟩ := hmir r0 hr0mem
      have hl0row : l0 = row := by
        apply eq_of_nodup_map (fun l => l.codigo) ws l0 row hw hl0mem hrowmem
        rw [hl0code, hr0code, hrowcode]
      rw [hupd, hregeq]
      have hdbmem : ∀ r ∈ db, r ∈ db₁ ∨ r = r0 ∨ r ∈ db₂ := by
        intro r hr
        rw [hdsplit] at hr
        simpa [List.mem_append, List.mem_cons] using hr
      refine ⟨hwcodes, ?_, ?_, ?_⟩
      · -- Nodup of the stored codes: the code list is unchanged
        have hmapeq := map_codigo_updateFirstDB db (normalizeDigitado raw) row.qtd_prevista q
        rw [hdsplit] at hmapeq
        rw [updateFirstDB_append_first db₁ r0 db₂ _ _ _ hdb1' hr0code] at hmapeq
        rw [hmapeq]
        exact hdsplit ▸ hd
      · -- every stored row still mirrors a working-set row
        intro r' hr'
        rcases List.mem_append.mp hr' with hr1 | hr2
        · -- untouched row left of the updated one
          have hrdb : r' ∈ db := by rw [hdsplit]; exact List.mem_append_left _ hr1
          obtain ⟨l, hl, hc, hcont, hprev, hdif, hst⟩ := hmir r' hrdb
          have hne : r'.codigo ≠ normalizeDigitado raw := hdb1' r' hr1
          have hl' : l ∈ ws₁ ++ { row with qtd_contada := row.qtd_contada + q } :: ws₂ := by
            rcases hwsmem l hl with h1 | h2 | h3
            · exact List.mem_append_left _ h1
            · exfalso
              apply hne
              rw [← hc, h2]
              exact hrowcode
            · exact List.mem_append_right _ (List.mem_cons_of_mem _ h3)
          exact ⟨l, hl', hc, hcont, hprev, hdif, hst⟩
        · rcases List.mem_cons.mp hr2 with hup | hr3
          · -- the updated row mirrors the bumped working-set row
            refine ⟨{ row with qtd_contada := row.qtd_contada + q }, hrowmem', ?_⟩
            subst hup
            have hcont0 : r0.qtd_contada = row.qtd_contada := by
              rw [hl0cont, hl0row]
            refine ⟨?_, ?_, rfl, ?_, ?_⟩
            · show row.codigo = r0.codigo
              rw [hrowcode, hr0code]
            · show r0.qtd_contada + q = row.qtd_contada + q
              rw [hcont0]
            · show r0.qtd_contada + q - row.qtd_prevista
                = row.qtd_contada + q - row.qtd_prevista
              rw [hcont0]
            · show calcular_status_db row.qtd_prevista (r0.qtd_contada + q)
                = classificar_status row.qtd_prevista (row.qtd_contada + q)
                    (row.qtd_contada + q - row.qtd_prevista)
              rw [hcont0, calcular_eq_classificar]
          · -- untouched row right of the updated one
            have hrdb : r' ∈ db := by
              rw [hdsplit]
              exact List.mem_append_right _ (List.mem_cons_of_mem _ hr3)
            obtain ⟨l, hl, hc, hcont, hprev, hdif, hst⟩ := hmir r' hrdb
            have hne : r'.codigo ≠ normalizeDigitado raw := hdb2' r' hr3
            have hl' : l ∈ ws₁ ++ { row with qtd_contada := row.qtd_contada + q } :: ws₂ := by
              rcases hwsmem l hl with h1 | h2 | h3
              · exact List.mem_append_left _ h1
              · exfalso
                apply hne
                rw [← hc, h2]
                exact hrowcode
              · exact List.mem_append_right _ (List.mem_cons_of_mem _ h3)
            exact ⟨l, hl', hc, hcont, hprev, hdif, hst⟩
      · -- uncounted rows stay uncounted
        intro l' hl' hnone
        rcases List.mem_append.mp hl' with h1 | h2
        · have hlws : l' ∈ ws := by
            rw [hwsplit]
            exact List.mem_append_left _ h1
          apply hzero l' hlws
          intro r hr
          rcases hdbmem r hr with hr1 | hr2 | hr3
          · exact hnone r (List.mem_append_left _ hr1)
          · have := hnone _ (List.mem_append_right _ (List.mem_cons_self _ _))
            subst hr2
            exact this
          · exact hnone r (List.mem_append_right _ (List.mem_cons_of_mem _ hr3))
        · rcases List.mem_cons.mp h2 with hup | h3
          · exfalso
            apply hnone _ (List.mem_append_right _ (List.mem_cons_self _ _))
            subst hup
            show r0.codigo = Linha.codigo { row with qtd_contada := row.qtd_contada + q }
            rw [hr0code]
            exact hrowcode.symm
          · have hlws : l' ∈ ws := by
              rw [hwsplit]
              exact List.mem_append_right _ (List.mem_cons_of_mem _ h3)
            apply hzero l' hlws
            intro r hr
            rcases hdbmem r hr with hr1 | hr2 | hr3
            · exact hnone r (List.mem_append_left _ hr1)
            · have := hnone _ (List.mem_append_right _ (List.mem_cons_self _ _))
              subst hr2
              exact this
            · exact hnone r (List.mem_append_right _ (List.mem_cons_of_mem _ hr3))
    · -- the store has no row for this code yet: SQL insert branch
      have hdb0 : ∀ r ∈ db, r.codigo ≠ normalizeDigitado raw := by
        intro r hr hcontra
        apply hany
        simp only [List.any_eq_true, decide_eq_true_eq]
        exact ⟨r, hr, hcontra⟩
      have hregeq :
          registrar_contagem_db db (normalizeDigitado raw) row.descricao row.qtd_prevista q
            = db ++ [⟨normalizeDigitado raw, row.descricao, row.qtd_prevista, q,
                     q - row.qtd_prevista,
                     calcular_status_db row.qtd_prevista q⟩] := by
        unfold registrar_contagem_db
        rw [if_neg hany]
      have hrow0 : row.qtd_contada = 0 := by
        apply hzero row hrowmem
        intro r hr
        rw [hrowcode]
        exact hdb0 r hr
      rw [hupd, hregeq]
      refine ⟨hwcodes, ?_, ?_, ?_⟩
      · rw [List.map_append, List.nodup_append]
        refine ⟨hd, by simp, ?_⟩
        intro a ha hb
        simp only [List.map_cons, List.map_nil, List.mem_singleton] at hb
        subst hb
        rcases List.mem_map.mp ha with ⟨r, hr, hcod⟩
        exact hdb0 r hr hcod
      · intro r' hr'
        rcases List.mem_append.mp hr' with hr1 | hr2
        · obtain ⟨l, hl, hc, hcont, hprev, hdif, hst⟩ := hmir r' hr1
          have hne : r'.codigo ≠ normalizeDigitado raw := hdb0 r' hr1
          have hl' : l ∈ ws₁ ++ { row with qtd_contada := row.qtd_contada + q } :: ws₂ := by
            rcases hwsmem l hl with h1 | h2 | h3
            · exact List.mem_append_left _ h1
            · exfalso
              apply hne
              rw [← hc, h2]
              exact hrowcode
            · exact List.mem_append_right _ (List.mem_cons_of_mem _ h3)
          exact ⟨l, hl', hc, hcont, hprev, hdif, hst⟩
        · simp only [List.mem_singleton] at hr2
          subst hr2
          refine ⟨{ row with qtd_contada := row.qtd_contada + q }, hrowmem', ?_⟩
          refine ⟨?_, ?_, rfl, ?_, ?_⟩
          · show row.codigo = normalizeDigitado raw
            exact hrowcode
          · show q = row.qtd_contada + q
            rw [hrow0]
            ring
          · show q - row.qtd_prevista = row.qtd_contada + q - row.qtd_prevista
            rw [hrow0]
            ring
          · show calcular_status_db row.qtd_prevista q
              = classificar_status row.qtd_prevista (row.qtd_contada + q)
                  (row.qtd_contada + q - row.qtd_prevista)
            rw [hrow0, calcular_eq_classificar]
            simp
      · intro l' hl' hnone
        rcases List.mem_append.mp hl' with h1 | h2
        · have hlws : l' ∈ ws := by
            rw [hwsplit]
            exact List.mem_append_left _ h1
          apply hzero l' hlws
          intro r hr
          exact hnone r (List.mem_append_left _ hr)
        · rcases List.mem_cons.mp h2 with hup | h3
          · exfalso
            apply hnone _ (List.mem_append_right _ (List.mem_singleton_self _))
            subst hup
            show normalizeDigitado raw
                = Linha.codigo { row with qtd_contada := row.qtd_contada + q }
            exact hrowcode.symm
          · have hlws : l' ∈ ws := by
              rw [hwsplit]
              exact List.mem_append_right _ (List.mem_cons_of_mem _ h3)
            apply hzero l' hlws
            intro r hr
            exact hnone r (List.mem_append_left _ hr)
  | none =>
    -- the code is absent from the working set: new surplus row on both sides
    have hnot : ∀ l ∈ ws, l.codigo ≠ normalizeDigitado raw := by
      intro l hl
      simpa using List.find?_eq_none.mp hf l hl
    have hdb0 : ∀ r ∈ db, r.codigo ≠ normalizeDigitado raw := by
      intro r hr hcontra
      obtain ⟨l, hl, hc, _, _, _, _⟩ := hmir r hr
      exact hnot l hl (hc.trans hcontra)
    have hany : ¬ db.any (fun r => r.codigo = normalizeDigitado raw) = true := by
      intro hcontra
      rcases List.any_eq_true.mp hcontra with ⟨r, hr, hpr⟩
      exact hdb0 r hr (by simpa using hpr)
    have hregeq :
        registrar_contagem_db db (normalizeDigitado raw) naoCadastrado 0 q
          = db ++ [⟨normalizeDigitado raw, naoCadastrado, 0, q, q - 0,
                   calcular_status_db 0 q⟩] := by
      unfold registrar_contagem_db
      rw [if_neg hany]
    simp only [confirmar, if_neg hg, hf]
    rw [hregeq]
    refine ⟨?_, ?_, ?_, ?_⟩
    · rw [List.map_append, List.nodup_append]
      refine ⟨hw, by simp, ?_⟩
      intro a ha hb
      simp only [List.map_cons, List.map_nil, List.mem_singleton] at hb
      subst hb
      rcases List.mem_map.mp ha with ⟨l, hl, hcod⟩
      exact hnot l hl hcod
    · rw [List.map_append, List.nodup_append]
      refine ⟨hd, by simp, ?_⟩
      intro a ha hb
      simp only [List.map_cons, List.map_nil, List.mem_singleton] at hb
      subst hb
      rcases List.mem_map.mp ha with ⟨r, hr, hcod⟩
      exact hdb0 r hr hcod
    · intro r' hr'
      rcases List.mem_append.mp hr' with hr1 | hr2
      · obtain ⟨l, hl, hc, hcont, hprev, hdif, hst⟩ := hmir r' hr1
        exact ⟨l, List.mem_append_left _ hl, hc, hcont, hprev, hdif, hst⟩
      · simp only [List.mem_singleton] at hr2
        subst hr2
        refine ⟨⟨normalizeDigitado raw, naoCadastrado, 0, q⟩,
          List.mem_append_right _ (List.mem_singleton_self _), rfl, rfl, rfl, rfl, ?_⟩
        show calcular_status_db 0 q = classificar_status 0 q (q - 0)
        exact calcular_eq_classificar 0 q
    · intro l' hl' hnone
      rcases List.mem_append.mp hl' with h1 | h2
      · apply hzero l' h1
        intro r hr
        exact hnone r (List.mem_append_left _ hr)
      · exfalso
        simp only [List.mem_singleton] at h2
        apply hnone _ (List.mem_append_right _ (List.mem_singleton_self _))
        subst h2
        rfl

theorem invMirror_runEvents (events : List (Str × Int))
    (s : List Linha × List DBRow) (h : invMirror s) :
    invMirror (runEvents s events) := by
  induction events generalizing s with
  | nil => simpa [runEvents] using h
  | cons e es ih =>
      have hstep : runEvents s (e :: es) = runEvents (confirmar s.1 s.2 e.1 e.2) es := by
        simp [runEvents]
      rw [hstep]
      exact ih _ (invMirror_confirmar s.1 s.2 e.1 e.2 h)

theorem invMirror_init (items : List Item)
    (hni : (items.map (fun i => i.codigo)).Nodup) :
    invMirror (inicializar_conferencia items [], []) := by
  have hmapeq : (inicializar_conferencia items []).map (fun l => l.codigo)
      = items.map (fun i => i.codigo) := by
    simp [inicializar_conferencia, List.map_map, Function.comp]
  refine ⟨hmapeq ▸ hni, by simp, by simp, ?_⟩
  intro l hl _
  simp only [inicializar_conferencia, List.isEmpty_nil, if_pos] at hl
  rcases List.mem_map.mp hl with ⟨i, _, hli⟩
  rw [← hli]

theorem countedOf_inicializar (items : List Item) (db : List DBRow) (c : Str)
    (hni : (items.map (fun i => i.codigo)).Nodup)
    (hnd : (db.map (fun r => r.codigo)).Nodup) :
    countedOf (inicializar_conferencia items db) c = countedOfDB db c := by
  unfold inicializar_conferencia
  by_cases hdb : db.isEmpty = true
  · have hdbnil : db = [] := List.isEmpty_iff.mp hdb
    subst hdbnil
    rw [if_pos hdb, countedOfDB_nil]
    apply List.sum_eq_zero
    intro x hx
    rcases List.mem_map.mp hx with ⟨l, hl, hval⟩
    rcases List.mem_map.mp hl with ⟨i, _, hli⟩
    subst hli hval
    simp
  · rw [if_neg hdb, countedOf_append, countedOf_seeded items db c hni,
      countedOf_extras items db c]
    by_cases hc : items.any (fun i => i.codigo = c) = true
    · rw [if_pos hc, if_pos hc, lookup_eq_countedOfDB db c hnd]
      ring
    · simp only [Bool.not_eq_true] at hc
      simp [hc]

/-!  ## Concrete fixtures used by witnesses and counterexamples  -/

/-- A manifest whose code column repeats the same normalized code. -/
def itensDup : List Item :=
  [⟨"7".toList, "7".toList, "A".toList, 10⟩,
   ⟨"7".toList, "7".toList, "B".toList, 3⟩]

/-- A persisted state holding a prior count of 2 for code "7". -/
def dbDup : List DBRow := [⟨"7".toList, "A".toList, 10, 2, -8, "FALTANDO"⟩]

/-- The one-item manifest of the specification's main scenario. -/
def itensScenario : List Item :=
  [⟨"00123".toList, "123".toList, "Widget".toList, 10⟩]

/-- A freshly-seeded working set for `itensScenario`. -/
def wsScenario : List Linha := [⟨"123".toList, "Widget".toList, 10, 0⟩]

/-- The two count events of the specification's main scenario. -/
def evScenario : List (Str × Int) := [("123".toList, 4), ("0123".toList, 6)]

/-- A surplus event followed by a manifest event. -/
def evMix : List (Str × Int) := [("999".toList, 2), ("123".toList, 4)]

/-!  ## Claims  -/

/-- C1, counterexample: when the manifest repeats a normalized code, the
working set holds two rows with code "7"; one count event of quantity 5 then
leaves the first row at its prior count 2 plus 5 and the second at 2, so
neither line's counted quantity equals the sum (5) of the quantities applied
to that code, refuting the claim that every line's counted quantity equals
that sum. -/
theorem C1_counterexample :
    (runEvents (inicializar_conferencia itensDup dbDup, dbDup) [("7".toList, 5)]).1
      = [⟨"7".toList, "A".toList, 10, 7⟩, ⟨"7".toList, "B".toList, 3, 2⟩]
    ∧ eventSum [("7".toList, 5)] "7".toList = 5
    ∧ (7 : Int) ≠ 5 ∧ (2 : Int) ≠ 5 := by decide

/-- C1 (amended): when the working set's normalized codes are pairwise
distinct, for every event sequence (a) the per-code counted total grows by
exactly the sum of the quantities whose code normalizes to that code, (b)
every initial line reappears with unchanged code and expected quantity and
with counted quantity equal to its initial counted quantity plus the sum of
the matching quantities — so on a freshly-seeded working set it equals that
sum — (c) the per-code totals are order-independent, and (d) no single event
with non-negative quantity decreases any line's counted quantity or removes
a row. -/
theorem C1_contagem_por_codigo (ws0 : List Linha) (db0 : List DBRow)
    (events : List (Str × Int))
    (hnodup : (ws0.map (fun l => l.codigo)).Nodup) :
    (∀ c, countedOf (runEvents (ws0, db0) events).1 c
        = countedOf ws0 c + eventSum events c)
    ∧ (∀ l ∈ ws0, ∃ x ∈ (runEvents (ws0, db0) events).1,
        x.codigo = l.codigo ∧ x.qtd_prevista = l.qtd_prevista
        ∧ x.qtd_contada = l.qtd_contada + eventSum events l.codigo)
    ∧ (∀ events2, events2.Perm events →
        ∀ c, countedOf (runEvents (ws0, db0) events2).1 c
          = countedOf (runEvents (ws0, db0) events).1 c)
    ∧ (∀ ws db raw q, 0 ≤ q →
        ws.length ≤ (confirmar ws db raw q).1.length
        ∧ List.Forall₂ rowLe ws ((confirmar ws db raw q).1.take ws.length)) := by
  refine ⟨?_, ?_, ?_, ?_⟩
  · intro c
    exact countedOf_runEvents events (ws0, db0) c
  · intro l hl
    rcases exists_row_runEvents events (ws0, db0) l hl with ⟨x, hx, hcod, hprev⟩
    refine ⟨x, hx, hcod, hprev, ?_⟩
    have hxnd := nodup_codes_runEvents events (ws0, db0) hnodup
    have h1 : x.qtd_contada = countedOf (runEvents (ws0, db0) events).1 x.codigo :=
      contada_eq_countedOf _ x hxnd hx
    rw [h1, hcod, countedOf_runEvents events (ws0, db0) l.codigo,
        ← contada_eq_countedOf ws0 l hnodup hl]
  · intro events2 hperm c
    rw [countedOf_runEvents, countedOf_runEvents]
    have hsum : eventSum events2 c = eventSum events c := by
      unfold eventSum
      exact List.Perm.sum_eq (hperm.map _)
    rw [hsum]
  · intro ws db raw q hq
    exact confirmar_monotone ws db raw q hq

/-- C1 witness: on the specification's scenario (one manifest line for
normalized code "123", events ("123", 4) then ("0123", 6)) the amended
theorem yields a counted total of 10. -/
theorem C1_contagem_por_codigo_witness :
    countedOf (runEvents (wsScenario, ([] : List DBRow)) evScenario).1 "123".toList = 10 := by
  have h := (C1_contagem_por_codigo wsScenario [] evScenario (by decide)).1 "123".toList
  rw [h]
  decide

/-- C2 (confirmed): the persistence-side classifier and the in-memory
classifier implement the identical rule; the zero-expected case is tested
first, so an expected quantity of 0 with a positive count yields the
unexpected-surplus status (a string distinct from plain "SOBRANDO"), and
otherwise a zero, positive or negative difference yields "OK", "SOBRANDO" or
"FALTANDO" respectively. -/
theorem C2_classificacao (p c : Int) :
    calcular_status_db p c = classificar_status p c (c - p)
    ∧ (p = 0 → 0 < c → calcular_status_db p c = statusSobrandoNaoPlanilha)
    ∧ statusSobrandoNaoPlanilha ≠ "SOBRANDO"
    ∧ (¬(p = 0 ∧ 0 < c) →
        (c - p = 0 → calcular_status_db p c = "OK")
        ∧ (0 < c - p → calcular_status_db p c = "SOBRANDO")
        ∧ (c - p < 0 → calcular_status_db p c = "FALTANDO")) := by
  refine ⟨calcular_eq_classificar p c, ?_, by decide, ?_⟩
  · intro hp hc
    unfold calcular_status_db
    rw [if_pos ⟨hp, hc⟩]
  · intro hno
    refine ⟨?_, ?_, ?_⟩ <;> intro hd <;> unfold calcular_status_db <;> rw [if_neg hno]
    · rw [if_pos hd]
    · rw [if_neg (by omega), if_pos hd]
    · rw [if_neg (by omega), if_neg (by omega)]

/-- C2 witness: a line with expected 0 and counted 5 classifies as the
unexpected-surplus status. -/
theorem C2_classificacao_witness :
    calcular_status_db 0 5 = statusSobrandoNaoPlanilha :=
  (C2_classificacao 0 5).2.1 rfl (by norm_num)

/-- C3, counterexample: with the duplicated manifest `itensDup` and no prior
persistence, one event ("7", 5) leaves an in-memory per-code total of 5, but
re-initializing from the persisted rows written by that same event hands the
persisted count 5 to both duplicate rows, giving a reloaded total of 10. -/
theorem C3_counterexample :
    countedOf (runEvents (inicializar_conferencia itensDup [], [])
        [("7".toList, 5)]).1 "7".toList = 5
    ∧ countedOf
        (inicializar_conferencia itensDup
          (runEvents (inicializar_conferencia itensDup [], []) [("7".toList, 5)]).2)
        "7".toList = 10
    ∧ (10 : Int) ≠ 5 := by decide

/-- C3 (amended): when the manifest's normalized codes are pairwise distinct
(and the persisted codes are, as the per-conference upsert keying keeps
them), re-initializing the working set from the persisted rows after any
event sequence reproduces, code for code, the in-memory counted totals from
before the restart.  Initialization is a pure function of its two inputs, so
re-initializing from the same inputs trivially reproduces the same working
set. -/
theorem C3_round_trip (items : List Item) (p0 : List DBRow)
    (events : List (Str × Int))
    (hni : (items.map (fun i => i.codigo)).Nodup)
    (hnp : (p0.map (fun r => r.codigo)).Nodup) :
    ∀ c, countedOf (inicializar_conferencia items
            (runEvents (inicializar_conferencia items p0, p0) events).2) c
        = countedOf (runEvents (inicializar_conferencia items p0, p0) events).1 c := by
  intro c
  have hdbn : ((runEvents (inicializar_conferencia items p0, p0) events).2.map
      (fun r => r.codigo)).Nodup :=
    nodup_codes_runEvents_db events _ hnp
  rw [countedOf_inicializar items _ c hni hdbn,
      countedOfDB_runEvents events _ c,
      countedOf_runEvents events _ c,
      countedOf_inicializar items p0 c hni hnp]

/-- C3 witness: the round trip holds on the concrete scenario manifest with
events ("123", 4) and ("0123", 6). -/
theorem C3_round_trip_witness :
    countedOf (inicializar_conferencia itensScenario
        (runEvents (inicializar_conferencia itensScenario [], []) evScenario).2)
        "123".toList
      = countedOf (runEvents (inicializar_conferencia itensScenario [], [])
          evScenario).1 "123".toList :=
  C3_round_trip itensScenario [] evScenario (by decide) (by decide) "123".toList

/-- C4 (confirmed): starting a conference from an empty persisted state,
after any sequence of count events every persisted row mirrors, per
normalized code, the in-memory working-set row: equal counted quantity,
equal expected quantity, stored difference equal to counted minus expected,
and stored status equal to the in-memory classification of the same
values. -/
theorem C4_espelhamento (items : List Item) (events : List (Str × Int))
    (hni : (items.map (fun i => i.codigo)).Nodup) :
    ∀ r ∈ (runEvents (inicializar_conferencia items [], []) events).2,
      ∃ l ∈ (runEvents (inicializar_conferencia items [], []) events).1,
        l.codigo = r.codigo ∧ r.qtd_contada = l.qtd_contada
        ∧ r.qtd_prevista = l.qtd_prevista
        ∧ r.diferenca = l.qtd_contada - l.qtd_prevista
        ∧ r.status = classificar_status l.qtd_prevista l.qtd_contada
            (l.qtd_contada - l.qtd_prevista) :=
  (invMirror_runEvents events _ (invMirror_init items hni)).2.2.1

/-- C4 witness: after a surplus event ("999", 2) and a manifest event
("123", 4) on the scenario manifest, the persisted surplus row mirrors an
in-memory row. -/
theorem C4_espelhamento_witness :
    ∃ l ∈ (runEvents (inicializar_conferencia itensScenario [], []) evMix).1,
      l.codigo = (⟨"999".toList, naoCadastrado, 0, 2, 2,
          statusSobrandoNaoPlanilha⟩ : DBRow).codigo
      ∧ (⟨"999".toList, naoCadastrado, 0, 2, 2,
          statusSobrandoNaoPlanilha⟩ : DBRow).qtd_contada = l.qtd_contada
      ∧ (⟨"999".toList, naoCadastrado, 0, 2, 2,
          statusSobrandoNaoPlanilha⟩ : DBRow).qtd_prevista = l.qtd_prevista
      ∧ (⟨"999".toList, naoCadastrado, 0, 2, 2,
          statusSobrandoNaoPlanilha⟩ : DBRow).diferenca
          = l.qtd_contada - l.qtd_prevista
      ∧ (⟨"999".toList, naoCadastrado, 0, 2, 2,
          statusSobrandoNaoPlanilha⟩ : DBRow).status
          = classificar_status l.qtd_prevista l.qtd_contada
              (l.qtd_contada - l.qtd_prevista) :=
  C4_espelhamento itensScenario evMix (by decide) _ (by decide)

/-- C5, counterexample: the typed-code normalization (trim, then strip
leading zeros) is not idempotent — "0 7" maps to " 7" and then to "7" — and
it disagrees with the manifest-column normalization (strip leading zeros,
then trim) on " 07": the manifest key is "07" while the typed key is "7",
refuting the claims that one normalization is shared by both paths and that
it is idempotent. -/
theorem C5_counterexample :
    normalizeDigitado (normalizeDigitado "0 7".toList) ≠ normalizeDigitado "0 7".toList
    ∧ normalizePlanilha " 07".toList ≠ normalizeDigitado " 07".toList := by decide

/-- C5 (amended): both normalizations are total; on strings without
whitespace they coincide, equal plain leading-zero stripping, and are
idempotent; and "007" normalizes to "7".  On strings holding whitespace
adjacent to leading zeros the two paths may differ and the typed-code
normalization need not be idempotent. -/
theorem C5_normalizacao (s : Str) (h : ∀ c ∈ s, isPySpace c = false) :
    normalizeDigitado s = normalizePlanilha s
    ∧ normalizeDigitado s = pyLstrip0 s
    ∧ normalizeDigitado (normalizeDigitado s) = normalizeDigitado s
    ∧ normalizeDigitado "007".toList = "7".toList := by
  have hstrip : pyStrip s = s := pyStrip_eq_self_of_noSpace s h
  have hsub : ∀ c ∈ pyLstrip0 s, isPySpace c = false := fun c hc =>
    h c (mem_of_mem_dropWhile _ s c hc)
  have h2 : normalizeDigitado s = pyLstrip0 s := by
    unfold normalizeDigitado
    rw [hstrip]
  refine ⟨?_, h2, ?_, by decide⟩
  · unfold normalizeDigitado normalizePlanilha
    rw [hstrip, pyStrip_eq_self_of_noSpace _ hsub]
  · rw [h2]
    unfold normalizeDigitado
    rw [pyStrip_eq_self_of_noSpace _ hsub]
    simp only [pyLstrip0]
    exact dropWhile_dropWhile _ s

/-- C5 witness: the amended statement instantiated at the whitespace-free
string "007". -/
theorem C5_normalizacao_witness :
    normalizeDigitado "007".toList = normalizePlanilha "007".toList
    ∧ normalizeDigitado "007".toList = pyLstrip0 "007".toList
    ∧ normalizeDigitado (normalizeDigitado "007".toList)
        = normalizeDigitado "007".toList
    ∧ normalizeDigitado "007".toList = "7".toList :=
  C5_normalizacao "007".toList (by decide)


/-- C6 (confirmed): a count for a code whose normalized form matches no
working-set row appends exactly one new line — after all existing lines —
with expected quantity 0, the fixed unregistered description and counted
quantity equal to the submitted quantity, and that line classifies as the
unexpected-surplus status. -/
theorem C6_nova_linha (ws : List Linha) (db : List DBRow) (raw : Str) (q : Int)
    (hne : pyStrip raw ≠ [])
    (habs : ∀ l ∈ ws, l.codigo ≠ normalizeDigitado raw)
    (hq : 0 < q) :
    (confirmar ws db raw q).1
      = ws ++ [⟨normalizeDigitado raw, naoCadastrado, 0, q⟩]
    ∧ classificar_status 0 q (q - 0) = statusSobrandoNaoPlanilha := by
  have hf : ws.find? (fun l => l.codigo = normalizeDigitado raw) = none := by
    rw [List.find?_eq_none]
    intro l hl
    simpa using habs l hl
  constructor
  · simp only [confirmar, if_neg hne, hf]
  · unfold classificar_status
    rw [if_pos ⟨rfl, hq⟩]

/-- C6 witness: the specification's scenario — counting ("999", 2) against
an empty working set creates the unexpected-surplus line. -/
theorem C6_nova_linha_witness :
    (confirmar [] [] "999".toList 2).1
      = [] ++ [⟨normalizeDigitado "999".toList, naoCadastrado, 0, 2⟩]
    ∧ classificar_status 0 2 (2 - 0) = statusSobrandoNaoPlanilha :=
  C6_nova_linha [] [] "999".toList 2 (by decide) (by simp) (by norm_num)

/-- A one-row working set used by the C7 counterexample. -/
def wsC7 : List Linha := [⟨"7".toList, "A".toList, 10, 0⟩]

/-- C7, counterexample: the handler contains no quantity guard and raises no
error type — quantities below 1 are merely unreachable through the
`number_input` widget (minimum 1).  Fed a quantity of -1 directly, the
handler mutates both the working set (the count decreases to -1) and the
store, refuting the claim that a submission with non-positive quantity fails
with `InvalidQuantityError` and mutates nothing. -/
theorem C7_counterexample :
    (confirmar wsC7 [] "7".toList (-1)).1 = [⟨"7".toList, "A".toList, 10, -1⟩]
    ∧ (confirmar wsC7 [] "7".toList (-1)).1 ≠ wsC7
    ∧ (confirmar wsC7 [] "7".toList (-1)).2
        = [⟨"7".toList, "A".toList, 10, -1, -11, "FALTANDO"⟩] := by decide

/-- C7 (amended): a submission whose code strips to the empty string is a
silent no-op — the guard `codigo_digitado.strip() != ""` skips the handler,
so neither the in-memory working set nor the durable store is mutated and no
error is raised; quantities below 1, for their part, are prevented by the
input widget's minimum rather than by an `InvalidQuantityError`. -/
theorem C7_codigo_vazio_noop (ws : List Linha) (db : List DBRow) (raw : Str)
    (q : Int) (h : pyStrip raw = []) :
    confirmar ws db raw q = (ws, db) := by
  simp [confirmar, h]

/-- C7 witness: a whitespace-only code leaves the state untouched. -/
theorem C7_codigo_vazio_noop_witness :
    confirmar wsC7 [] "   ".toList 3 = (wsC7, []) :=
  C7_codigo_vazio_noop wsC7 [] "   ".toList 3 (by decide)

/-- A grid with no cell containing "CodSap", used by the C8 fixtures. -/
def gridBad : List (List Str) := [["Viagem: 9".toList, "x".toList]]

/-- A session state in which a previous conference was already saved. -/
def s0C8 : SessionState := ⟨none, none, none, none, none, none, true⟩

/-- C8, counterexample: (a) on an empty sheet the metadata read of row 0
fails with an index error before the header search, so the load fails even
though no row contains "CodSap", refuting the "if and only if" tied to
`ParseError("header row not found")`; (b) on any failed load the upload
branch has already reset the session flag `conferencia_salva` to False, so
session state is mutated on the failure path. -/
theorem C8_counterexample :
    carregar_planilha_nf ([] : List (List Str)) = .error .indexError
    ∧ ParseErr.indexError ≠ ParseErr.headerNotFound
    ∧ (([] : List (List Str)).all (fun r => !linhaTemCodSap r)) = true
    ∧ uploadHandler s0C8 gridBad 0 [] ≠ s0C8
    ∧ uploadHandler s0C8 gridBad 0 []
        = { s0C8 with conferencia_salva := false } := by decide

/-- C8 (amended): for a non-empty raw grid, the parse fails with the
header-not-found error precisely when no cell of any row contains "CodSap"
case-insensitively; when some row does, the header index used is the first
such row; and on any parse failure the upload branch leaves every session
field untouched except `conferencia_salva`, which it has reset to False.
(An empty grid instead fails with the index error of the metadata read.) -/
theorem C8_cabecalho (grid : List (List Str)) (s : SessionState) (confId : Nat)
    (dbLines : List DBRow) (hne : grid ≠ []) :
    (carregar_planilha_nf grid = .error .headerNotFound
      ↔ ∀ row ∈ grid, linhaTemCodSap row = false)
    ∧ (∀ i, grid.findIdx? linhaTemCodSap = some i →
        ∃ hi : i < grid.length,
          linhaTemCodSap (grid.get ⟨i, hi⟩) = true
          ∧ ∀ j (hj : j < i),
              linhaTemCodSap (grid.get ⟨j, Nat.lt_trans hj hi⟩) = false)
    ∧ (∀ e, carregar_planilha_nf grid = .error e →
        uploadHandler s grid confId dbLines
          = { s with conferencia_salva := false }) := by
  refine ⟨?_, ?_, ?_⟩
  · rw [← List.findIdx?_eq_none_iff]
    cases grid with
    | nil => exact absurd rfl hne
    | cons r0 rest =>
        cases hidx : (r0 :: rest).findIdx? linhaTemCodSap with
        | none => simp [carregar_planilha_nf, hidx]
        | some h =>
            constructor
            · intro hcontra
              exfalso
              rcases hc1 : acharColuna (((r0 :: rest).getD h []).map pyStrip)
                  "CODSAP".toList none with _ | i1 <;>
                rcases hc2 : acharColuna (((r0 :: rest).getD h []).map pyStrip)
                    "DESCRI".toList none with _ | i2 <;>
                  rcases hc3 : acharColuna (((r0 :: rest).getD h []).map pyStrip)
                      "QTDE".toList (some "REAL".toList) with _ | i3 <;>
                    simp only [carregar_planilha_nf, hidx, hc1, hc2, hc3]
                      at hcontra <;>
                    simp at hcontra
            · intro hcontra
              simp at hcontra
  · intro i hidx
    obtain ⟨hi, h1, h2⟩ := List.findIdx?_eq_some_iff_getElem.mp hidx
    refine ⟨hi, ?_, ?_⟩
    · simpa using h1
    · intro j hj
      have h3 := h2 j hj
      simpa using h3
  · intro e he
    simp [uploadHandler, he]

/-- C8 witness: on the concrete CodSap-free grid, the parse failure is
exactly the header error and the upload branch only resets the saved
flag. -/
theorem C8_cabecalho_witness :
    (carregar_planilha_nf gridBad = .error .headerNotFound
      ↔ ∀ row ∈ gridBad, linhaTemCodSap row = false) :=
  (C8_cabecalho gridBad s0C8 0 [] (by decide)).1

theorem mem_filtraItens (its : List Item) (r : Item) (hr : r ∈ filtraItens its) :
    r.codigo ≠ []
    ∧ toLowerStr r.codigo ≠ "nan".toList
    ∧ toLowerStr r.descricao ≠ "nan".toList
    ∧ isSubstr "CODSAP".toList (toUpperStr r.codigo_original) = false
    ∧ isSubstr "DESCRI".toList (toUpperStr r.descricao) = false := by
  unfold filtraItens at hr
  simp only [List.mem_filter, Bool.not_eq_true', Bool.not_eq_true,
    decide_eq_false_iff_not] at hr
  obtain ⟨⟨⟨⟨⟨⟨hmem, h1⟩, h2⟩, h3⟩, h4⟩, h5⟩, h6⟩ := hr
  refine ⟨?_, h5, h4, h1, h2⟩
  intro hnil
  rw [hnil] at h3
  simp [pyStrip] at h3

/-- The raw grid used by the C9 counterexample: a header row followed by a
row with a non-numeric quantity cell, a row with a negative quantity cell,
and a row whose description cell holds only spaces. -/
def gridC9 : List (List Str) :=
  [["CodSap".toList, "Descricao".toList, "Qtde".toList],
   ["5".toList, "X".toList, "abc".toList],
   ["6".toList, "Y".toList, "-3".toList],
   ["7".toList, "   ".toList, "2".toList]]

/-- C9, counterexample: the cleaning block keeps the row whose quantity cell
"abc" is unresolvable (coercing the quantity to 0 instead of dropping the
row), keeps a negative expected quantity (-3), and keeps a row whose
description trims to the empty string — refuting the claims that
unresolvable-quantity rows are absent, that every retained row has
expected quantity at least 0, and that empty descriptions are dropped. -/
theorem C9_counterexample :
    carregar_planilha_nf gridC9
      = .ok ⟨[⟨"5".toList, "5".toList, "X".toList, 0⟩,
              ⟨"6".toList, "6".toList, "Y".toList, -3⟩,
              ⟨"7".toList, "7".toList, [], 2⟩],
             none, none, none⟩
    ∧ toNumericInt "abc".toList = none
    ∧ ((-3 : Int) < 0) := by decide

/-- C9 (amended): every row retained by the parser has a non-empty
normalized code that is not the literal "nan", a description that is not the
literal "nan", no re-occurrence of the header token "CODSAP" in its raw code
nor of "DESCRI" in its description, and an integer expected quantity
(non-numeric cells coerce to 0; rows with unresolvable or negative
quantities and rows whose description trims to empty are retained, not
dropped). -/
theorem C9_limpeza (grid : List (List Str)) (out : Planilha)
    (h : carregar_planilha_nf grid = .ok out) :
    ∀ r ∈ out.itens,
      r.codigo ≠ []
      ∧ toLowerStr r.codigo ≠ "nan".toList
      ∧ toLowerStr r.descricao ≠ "nan".toList
      ∧ isSubstr "CODSAP".toList (toUpperStr r.codigo_original) = false
      ∧ isSubstr "DESCRI".toList (toUpperStr r.descricao) = false := by
  intro r hr
  cases grid with
  | nil => simp [carregar_planilha_nf] at h
  | cons r0 rest =>
      cases hidx : (r0 :: rest).findIdx? linhaTemCodSap with
      | none => simp [carregar_planilha_nf, hidx] at h
      | some hd =>
          rcases hc1 : acharColuna (((r0 :: rest).getD hd []).map pyStrip)
              "CODSAP".toList none with _ | i1 <;>
            rcases hc2 : acharColuna (((r0 :: rest).getD hd []).map pyStrip)
                "DESCRI".toList none with _ | i2 <;>
              rcases hc3 : acharColuna (((r0 :: rest).getD hd []).map pyStrip)
                  "QTDE".toList (some "REAL".toList) with _ | i3 <;>
                simp only [carregar_planilha_nf, hidx, hc1, hc2, hc3] at h <;>
                  try exact Except.noConfusion h
          injection h with h2
          rw [← h2] at hr
          exact mem_filtraItens _ r hr

/-- The raw grid of the specification's main scenario, used as the C9
witness input. -/
def gridScenario : List (List Str) :=
  [["Roll".toList, "CodSap".toList, "Descricao".toList,
    "Qtde".toList, "Qtde Real".toList],
   ["1".toList, "00123".toList, "Widget".toList, "10".toList, "9".toList]]

/-- C9 witness: the single retained row of the scenario grid satisfies the
cleaning invariants. -/
theorem C9_limpeza_witness :
    (⟨"00123".toList, "123".toList, "Widget".toList, 10⟩ : Item).codigo ≠ []
    ∧ toLowerStr (⟨"00123".toList, "123".toList, "Widget".toList, 10⟩ : Item).codigo
        ≠ "nan".toList
    ∧ toLowerStr (⟨"00123".toList, "123".toList, "Widget".toList, 10⟩ : Item).descricao
        ≠ "nan".toList
    ∧ isSubstr "CODSAP".toList
        (toUpperStr (⟨"00123".toList, "123".toList, "Widget".toList, 10⟩ : Item).codigo_original)
        = false
    ∧ isSubstr "DESCRI".toList
        (toUpperStr (⟨"00123".toList, "123".toList, "Widget".toList, 10⟩ : Item).descricao)
        = false :=
  C9_limpeza gridScenario
    ⟨[⟨"00123".toList, "123".toList, "Widget".toList, 10⟩], none, none, none⟩
    (by decide) _ (by decide)

/-- C10 (confirmed): when the working set splits as `ws1 ++ l :: ws2` with no
row of `ws1` carrying the submitted code's normalized form and `l` carrying
it, a count submission updates exactly `l` — its counted quantity grows by
the quantity — and every other row, including any later duplicate of the
same code inside `ws2`, is returned unchanged in place. -/
theorem C10_duplicatas (ws1 ws2 : List Linha) (l : Linha) (db : List DBRow)
    (raw : Str) (q : Int)
    (hne : pyStrip raw ≠ [])
    (hcode : l.codigo = normalizeDigitado raw)
    (hfirst : ∀ x ∈ ws1, x.codigo ≠ l.codigo) :
    (confirmar (ws1 ++ l :: ws2) db raw q).1
      = ws1 ++ { l with qtd_contada := l.qtd_contada + q } :: ws2 := by
  cases hf : (ws1 ++ l :: ws2).find? (fun x => x.codigo = normalizeDigitado raw) with
  | none =>
      exfalso
      have hl := List.find?_eq_none.mp hf l
        (List.mem_append_right _ (List.mem_cons_self _ _))
      simp [hcode] at hl
  | some row =>
      simp only [confirmar, if_neg hne, hf]
      rw [updateFirst_append_first ws1 l ws2 _ q
        (fun x hx => hcode ▸ hfirst x hx) hcode]

/-- C10 witness: with two rows for the duplicated code "7", the submission
("7", 5) bumps only the first row; the second keeps its count of 0. -/
theorem C10_duplicatas_witness :
    (confirmar [⟨"7".toList, "A".toList, 10, 0⟩, ⟨"7".toList, "B".toList, 3, 0⟩]
        [] "7".toList 5).1
      = [⟨"7".toList, "A".toList, 10, 5⟩, ⟨"7".toList, "B".toList, 3, 0⟩] := by
  have h := C10_duplicatas [] [⟨"7".toList, "B".toList, 3, 0⟩]
      ⟨"7".toList, "A".toList, 10, 0⟩ [] "7".toList 5 (by decide) (by decide)
      (by intro x hx; simp at hx)
  simpa using h
